import Mathlib

/-!
Verification of the grading harness in `src/Tester.py`.

The development shallowly embeds the module's data model and operations:

* Python values are modelled by the inductive type `PyVal`; the Python value
  `None` is `PyVal.none`, and Python `==` on the values the harness compares is
  structural equality (decidable equality on `PyVal`).
* A candidate (student) callable may return, raise, or time out; the behaviour
  of its fully-curried invocation is modelled by `PyOutcome`.  The reference
  (solution) callable is trusted and total, so it is modelled as a plain
  function into `PyVal`.
* Mutable state (`FuncTestResult.add_set_result`, appends to
  `stf.function_test_results`) is modelled by explicit state passing.
* The in-place argument mutation that `deepcopy` guards against (the
  `partial(f, deepcopy(arg))` loop of `test_one_arg_set`) is modelled by an
  explicit heap of mutable cells, see the `Heap` section below.
-/

namespace Tester

/-- Python values exchanged between the harness, the candidate and the
reference callables.  `PyVal.none` is Python's `None`.  Python `==` on these
values is structural equality (cross-type numeric coercions such as
`True == 1` are not modelled; no claim compares across types). -/
inductive PyVal where
  | none : PyVal
  | int : Int → PyVal
  | str : String → PyVal
  | bool : Bool → PyVal
  | list : List PyVal → PyVal

mutual

/-- Decidable equality for `PyVal` (hand-written because of the nested
`List PyVal`). -/
def PyVal.decEq : (a b : PyVal) → Decidable (a = b)
  | .none, .none => isTrue rfl
  | .none, .int _ => isFalse fun h => PyVal.noConfusion h
  | .none, .str _ => isFalse fun h => PyVal.noConfusion h
  | .none, .bool _ => isFalse fun h => PyVal.noConfusion h
  | .none, .list _ => isFalse fun h => PyVal.noConfusion h
  | .int _, .none => isFalse fun h => PyVal.noConfusion h
  | .int a, .int b =>
    if h : a = b then isTrue (congrArg PyVal.int h)
    else isFalse fun hh => h (by injection hh)
  | .int _, .str _ => isFalse fun h => PyVal.noConfusion h
  | .int _, .bool _ => isFalse fun h => PyVal.noConfusion h
  | .int _, .list _ => isFalse fun h => PyVal.noConfusion h
  | .str _, .none => isFalse fun h => PyVal.noConfusion h
  | .str _, .int _ => isFalse fun h => PyVal.noConfusion h
  | .str a, .str b =>
    if h : a = b then isTrue (congrArg PyVal.str h)
    else isFalse fun hh => h (by injection hh)
  | .str _, .bool _ => isFalse fun h => PyVal.noConfusion h
  | .str _, .list _ => isFalse fun h => PyVal.noConfusion h
  | .bool _, .none => isFalse fun h => PyVal.noConfusion h
  | .bool _, .int _ => isFalse fun h => PyVal.noConfusion h
  | .bool _, .str _ => isFalse fun h => PyVal.noConfusion h
  | .bool a, .bool b =>
    if h : a = b then isTrue (congrArg PyVal.bool h)
    else isFalse fun hh => h (by injection hh)
  | .bool _, .list _ => isFalse fun h => PyVal.noConfusion h
  | .list _, .none => isFalse fun h => PyVal.noConfusion h
  | .list _, .int _ => isFalse fun h => PyVal.noConfusion h
  | .list _, .str _ => isFalse fun h => PyVal.noConfusion h
  | .list _, .bool _ => isFalse fun h => PyVal.noConfusion h
  | .list xs, .list ys =>
    match PyVal.decEqList xs ys with
    | isTrue h => isTrue (congrArg PyVal.list h)
    | isFalse h => isFalse fun hh => h (by injection hh)

/-- Decidable equality on lists of `PyVal`. -/
def PyVal.decEqList : (xs ys : List PyVal) → Decidable (xs = ys)
  | [], [] => isTrue rfl
  | [], _ :: _ => isFalse fun h => List.noConfusion h
  | _ :: _, [] => isFalse fun h => List.noConfusion h
  | x :: xs, y :: ys =>
    match PyVal.decEq x y with
    | isFalse h1 => isFalse fun hh => h1 (by injection hh)
    | isTrue h1 =>
      match PyVal.decEqList xs ys with
      | isTrue h2 => isTrue (by rw [h1, h2])
      | isFalse h2 => isFalse fun hh => h2 (by injection hh)

end

instance : DecidableEq PyVal := PyVal.decEq

/-- Outcome of invoking a fully-curried candidate callable: it returns a
value, raises an exception other than the timeout signal, or hits the
timeout (the `stopit` `TimeoutException`). -/
inductive PyOutcome where
  | ret : PyVal → PyOutcome
  | raised : PyOutcome
  | timeout : PyOutcome
deriving DecidableEq

/-- A candidate callable, already applied to its argument list: the behaviour
of the `stf_func()` call in `run_with_timeout`. -/
abbrev Candidate := List PyVal → PyOutcome

/-- A reference callable: trusted, total (`sol_func()` in
`test_one_arg_set`). -/
abbrev RefFunc := List PyVal → PyVal

/-- Constant `SEPERATOR = '#' * 15` (sic, the source's spelling). -/
def SEPERATOR : String := String.mk (List.replicate 15 '#')

/-- Constant `TIMEOUT_SEC = 5`. -/
def TIMEOUT_SEC : Nat := 5

/-- Constant `INFINITE_LOOP_STR`. -/
def INFINITE_LOOP_STR : String :=
  "Function call did not return in < 5sec, likely an infinite loop\n"

/-- Constant `FUNC_TEST_HEADER = SEPERATOR + ' function: %s, score: %d/%d' + SEPERATOR + '\n'`. -/
def FUNC_TEST_HEADER : String :=
  SEPERATOR ++ " function: %s, score: %d/%d" ++ SEPERATOR ++ "\n"

/-- Constant `RUN_TIME_ERR_STR` (sic, with the source's typos). -/
def RUN_TIME_ERR_STR : String :=
  "An error ocurred during excuting of your function\n"

/-- Constant `LOAD_TIME_ERR_STR`. -/
def LOAD_TIME_ERR_STR : String :=
  "An error occured when loading your function for grading\n"

/-- Embedding of `run_with_timeout(func)`: runs the curried candidate under
`ThreadingTimeout(TIMEOUT_SEC)`.  `return_val` and `exc_str` start as `None`
and `time_out` as `False`; a normal return fills `return_val`, a
`stopit.utils.TimeoutException` sets `time_out`, any other exception sets
`exc_str = RUN_TIME_ERR_STR`.  Returns `(time_out, return_val, exc_str)`. -/
def run_with_timeout (func : PyOutcome) : Bool × PyVal × Option String :=
  match func with
  | PyOutcome.ret v => (false, v, Option.none)
  | PyOutcome.timeout => (true, PyVal.none, Option.none)
  | PyOutcome.raised => (false, PyVal.none, some RUN_TIME_ERR_STR)

/-- Python truthiness of the optional string `exc_str` as used in the
`elif exc_str:` branch of `test_one_arg_set`: `None` and the empty string
are falsy. -/
def pyTruthy : Option String → Bool
  | Option.none => false
  | some s => !s.isEmpty

/-- Structure `ArgSetTestResult`: result of a single set of input arguments. -/
structure ArgSetTestResult where
  inputs : List PyVal
  expected : PyVal
  actual : PyVal
  exception_str : Option String
  is_correct : Bool
deriving DecidableEq

/-- Embedding of `ArgSetTestResult.__init__`: stores the four fields and computes
`is_correct = expected == actual` once. -/
def ArgSetTestResult.make (inputs : List PyVal) (expected : PyVal)
    (actual : PyVal) (exception_str : Option String) : ArgSetTestResult :=
  { inputs := inputs
    expected := expected
    actual := actual
    exception_str := exception_str
    is_correct := expected == actual }

/-- Embedding of `test_one_arg_set(arg_set, stf_func, sol_func)`: runs the candidate under
the timeout, computes the answer key from the solution, and builds the
`ArgSetTestResult` via the `arg_set_partial` branches. -/
def test_one_arg_set (arg_set : List PyVal) (stf_func : Candidate)
    (sol_func : RefFunc) : ArgSetTestResult :=
  let out := run_with_timeout (stf_func arg_set)
  let is_timeout := out.1
  let return_val := out.2.1
  let exc_str := out.2.2
  let answer_key := sol_func arg_set
  if is_timeout then
    ArgSetTestResult.make arg_set answer_key PyVal.none (some INFINITE_LOOP_STR)
  else if pyTruthy exc_str then
    ArgSetTestResult.make arg_set answer_key PyVal.none exc_str
  else
    ArgSetTestResult.make arg_set answer_key return_val Option.none

/-- Structure `FuncTestResult`: meta information about the testing of one function.
`exc` is the load-failed flag set when the candidate callable could not be
resolved. -/
structure FuncTestResult where
  function_name : String
  score : Int
  arg_sets_res : List ArgSetTestResult
  exc : Bool
deriving DecidableEq

/-- Embedding of `FuncTestResult.add_set_result`: appends one `ArgSetTestResult`. -/
def FuncTestResult.add_set_result (r : FuncTestResult)
    (result : ArgSetTestResult) : FuncTestResult :=
  { r with arg_sets_res := r.arg_sets_res ++ [result] }

/-- Embedding of `FuncTestResult.calc_score`: 0 if the load-failed flag is set, 0 as soon
as one stored result has `is_correct` false, otherwise the configured
score (all or nothing). -/
def FuncTestResult.calc_score (r : FuncTestResult) : Int :=
  if r.exc then 0
  else if r.arg_sets_res.all (fun s => s.is_correct) then r.score
  else 0

/-- Structure `Func`: specs of a single function (name, argument sets, score). -/
structure Func where
  name : String
  arg_sets : List (List PyVal)
  score : Int

/-- A student submission: `module` models
`getattr(__import__(stf.file_xext()), name)` — `Option.none` when that lookup
raises any exception (missing function, import or syntax error), `some c`
when it resolves to the candidate callable `c`.  `function_test_results` is
the accumulated list mutated by `test_func`. -/
structure StudentFile where
  module : String → Option Candidate
  function_test_results : List FuncTestResult

/-- Structure `Section` of the source: collection of student files sharing one grading
configuration. -/
structure GSection where
  student_files : List StudentFile

/-- Embedding of `test_func(func, stf, sol_name)`: resolves the solution callable
(trusted, modelled by the total map `solModule`), then tries to resolve the
candidate.  On failure it appends a `FuncTestResult(func.name, func.score,
True)` and returns; on success it appends a `FuncTestResult(..., False)` and
runs `test_one_arg_set` over `func.arg_sets`, adding each result in order.
In the source the `FuncTestResult` object is appended before the loop and
then mutated through the alias `func_result`; the pure model appends the
finished record, which yields the same final state. -/
def test_func (func : Func) (stf : StudentFile)
    (solModule : String → RefFunc) : StudentFile :=
  let sol_func := solModule func.name
  match stf.module func.name with
  | Option.none =>
    let func_result : FuncTestResult := ⟨func.name, func.score, [], true⟩
    { stf with function_test_results := stf.function_test_results ++ [func_result] }
  | some sft_func =>
    let func_result : FuncTestResult := ⟨func.name, func.score, [], false⟩
    let func_result := func.arg_sets.foldl
      (fun fr arg_set => fr.add_set_result (test_one_arg_set arg_set sft_func sol_func))
      func_result
    { stf with function_test_results := stf.function_test_results ++ [func_result] }

/-- Embedding of `grade_section(sol_fname, funcs, section)`: for every student file, for
every function spec in order, run `test_func` (which appends to that
student's result list). -/
def grade_section (solModule : String → RefFunc) (funcs : List Func)
    (sec : GSection) : GSection :=
  { student_files :=
      sec.student_files.map (fun stf => funcs.foldl (fun s f => test_func f s solModule) stf) }

/-- Characterization of the `FuncTestResult` that `test_func` records for
one (student, function) pair, used to state C3 and C7: a resolution failure
yields the load-failed flag and an empty result list; success yields the
flag clear and one `ArgSetTestResult` per argument set, in the spec's
declared order. -/
def test_func_result (func : Func) (module : String → Option Candidate)
    (solModule : String → RefFunc) : FuncTestResult :=
  match module func.name with
  | Option.none => ⟨func.name, func.score, [], true⟩
  | some c =>
    ⟨func.name, func.score,
      func.arg_sets.map (fun a => test_one_arg_set a c (solModule func.name)), false⟩

/-- Python percent-formatting restricted to the `%s` and `%d` directives
used by `FUNC_TEST_HEADER`: each directive consumes the next (already
rendered) argument; every other character is copied verbatim. -/
def pyFormatAux : List Char → List String → List Char
  | [], _ => []
  | '%' :: 's' :: rest, a :: args => a.data ++ pyFormatAux rest args
  | '%' :: 'd' :: rest, a :: args => a.data ++ pyFormatAux rest args
  | c :: rest, args => c :: pyFormatAux rest args

/-- String-level wrapper of `pyFormatAux`. -/
def pyFormat (fmt : String) (args : List String) : String :=
  String.mk (pyFormatAux fmt.data args)

/-- Header portion of `FuncTestResult.__str__`: `score_recieved` (sic) is 0
on load failure and `calc_score()` otherwise; the header line is
`FUNC_TEST_HEADER % (function_name, score_recieved, score)`. -/
def FuncTestResult.header (r : FuncTestResult) : String :=
  let score_recieved : Int := if r.exc then 0 else r.calc_score
  pyFormat FUNC_TEST_HEADER [r.function_name, toString score_recieved, toString r.score]

/-- Heap of mutable Python objects for the argument-isolation claim: cell
`r` holds the current state of the object reference `r` points to. -/
abbrev Heap := List PyVal

/-- Reading the object state behind a reference (a heap-cell index;
out-of-range reads default to `None`; every read in this development is in
range). -/
def Heap.read (h : Heap) (r : Nat) : PyVal := h.getD r PyVal.none

/-- In-place overwrite of the object state behind a reference. -/
def Heap.write (h : Heap) (r : Nat) (v : PyVal) : Heap := h.set r v

/-- Embedding of `copy.deepcopy(arg)`: allocate a fresh cell holding a
structurally equal copy of the object behind `r`, returning the extended
heap and the fresh reference. -/
def deepcopy (h : Heap) (r : Nat) : Heap × Nat := (h ++ [Heap.read h r], h.length)

/-- Embedding of the currying loop of `test_one_arg_set` (`for arg in
arg_set: stf_func = partial(stf_func, deepcopy(arg)); sol_func =
partial(sol_func, deepcopy(arg))`): for each argument reference, bind one
independent deep copy for the candidate and another for the reference.
Returns the final heap, the candidate's argument references and the
reference path's argument references, in argument order. -/
def curry_with_deepcopy : Heap → List Nat → Heap × List Nat × List Nat
  | h, [] => (h, [], [])
  | h, r :: rs =>
    let hc := deepcopy h r
    let hs := deepcopy hc.1 r
    let rest := curry_with_deepcopy hs.1 rs
    (rest.1, hc.2 :: rest.2.1, hs.2 :: rest.2.2)

/-- In-place mutations performed by a callable on its own arguments during
its run: each write names one of the callable's argument positions and the
new object state written through that reference. -/
def run_mutations (h : Heap) (refs : List Nat) (writes : List (Nat × PyVal)) : Heap :=
  writes.foldl
    (fun hh w =>
      match refs.get? w.1 with
      | some r => Heap.write hh r w.2
      | Option.none => hh)
    h

/-!  Theorems. -/

/-- The fixed runtime-error message is non-empty, so it is truthy in the
`elif exc_str:` test. -/
theorem RUN_TIME_ERR_STR_isEmpty : RUN_TIME_ERR_STR.isEmpty = false := rfl

/-- C1: `calc_score` is strictly all-or-nothing: it returns 0 if the
load-failed flag is set or some stored `ArgSetTestResult` has `is_correct`
false; it returns the configured `score` when the flag is clear and every
stored result is correct; and it never returns any value other than 0 or the
configured score. -/
theorem calc_score_all_or_nothing (r : FuncTestResult) :
    ((r.exc = true ∨ ∃ s ∈ r.arg_sets_res, s.is_correct = false) → r.calc_score = 0)
    ∧ ((r.exc = false ∧ ∀ s ∈ r.arg_sets_res, s.is_correct = true) → r.calc_score = r.score)
    ∧ (r.calc_score = 0 ∨ r.calc_score = r.score) := by
  unfold FuncTestResult.calc_score
  refine ⟨?_, ?_, ?_⟩
  · rintro (hexc | ⟨s, hs, hfalse⟩)
    · simp [hexc]
    · by_cases hexc : r.exc
      · simp [hexc]
      · have hnot : ¬ (r.arg_sets_res.all (fun s => s.is_correct) = true) := by
          rw [List.all_eq_true]
          intro hall
          have := hall s hs
          simp [hfalse] at this
        simp [hexc, hnot]
  · rintro ⟨hexc, hall⟩
    have : r.arg_sets_res.all (fun s => s.is_correct) = true :=
      List.all_eq_true.mpr hall
    simp [hexc, this]
  · by_cases hexc : r.exc
    · simp [hexc]
    · by_cases hall : r.arg_sets_res.all (fun s => s.is_correct) = true
      · simp [hexc, hall]
      · simp [hexc, hall]

/-- Witness for C1 at concrete inputs: a result list with one incorrect case
scores 0, and a result list whose single case is correct scores the full 10. -/
theorem calc_score_all_or_nothing_witness :
    (FuncTestResult.mk "f" 10
        [ArgSetTestResult.make [] (PyVal.int 1) (PyVal.int 2) Option.none] false).calc_score = 0
    ∧ (FuncTestResult.mk "g" 10
        [ArgSetTestResult.make [] (PyVal.int 1) (PyVal.int 1) Option.none] false).calc_score = 10 :=
  ⟨(calc_score_all_or_nothing _).1
      (Or.inr ⟨ArgSetTestResult.make [] (PyVal.int 1) (PyVal.int 2) Option.none,
        by decide, by decide⟩),
   (calc_score_all_or_nothing _).2.1 ⟨rfl, by decide⟩⟩

/-- C5: for every curried candidate behaviour, exactly one of the three
outcomes holds in the triple returned by `run_with_timeout` — normal return
(`time_out = false` and `exc_str = None`), timeout (`time_out = true`), or
error (`exc_str` is the fixed runtime-error message) — and the only error
text the component can emit is the fixed message (any exception other than
the timeout signal is caught and converted; none escapes). -/
theorem run_with_timeout_trichotomy (f : PyOutcome) :
    ((decide ((run_with_timeout f).1 = false ∧ (run_with_timeout f).2.2 = Option.none)).toNat
      + (run_with_timeout f).1.toNat
      + (decide ((run_with_timeout f).2.2 = some RUN_TIME_ERR_STR)).toNat = 1)
    ∧ ((run_with_timeout f).2.2 = Option.none
        ∨ (run_with_timeout f).2.2 = some RUN_TIME_ERR_STR) := by
  cases f <;> simp [run_with_timeout]

/-- C2 fails as stated: when the reference callable returns `None` for an
argument set on which the candidate raises, the `ArgSetTestResult` is marked
correct (`expected == actual` compares `None` with `None`), not incorrect. -/
theorem candidate_raise_marked_correct_on_none :
    (test_one_arg_set [PyVal.int 1] (fun _ => PyOutcome.raised)
        (fun _ => PyVal.none)).is_correct = true := by decide

/-- C2 amended: for every argument set on which the candidate times out or
raises, the resulting `ArgSetTestResult` is marked incorrect provided the
reference callable's return value for that argument set is not `None` (when
the reference returns `None`, the stored `actual = None` makes
`expected == actual` hold and the case is marked correct). -/
theorem candidate_failure_marked_incorrect (arg_set : List PyVal)
    (stf_func : Candidate) (sol_func : RefFunc)
    (hfail : stf_func arg_set = PyOutcome.raised ∨ stf_func arg_set = PyOutcome.timeout)
    (href : sol_func arg_set ≠ PyVal.none) :
    (test_one_arg_set arg_set stf_func sol_func).is_correct = false := by
  rcases hfail with h | h <;>
    simp [test_one_arg_set, run_with_timeout, h, ArgSetTestResult.make, pyTruthy,
      RUN_TIME_ERR_STR_isEmpty, href]

/-- Witness for the amended C2: a raising candidate against a reference
returning 3 yields an incorrect case. -/
theorem candidate_failure_marked_incorrect_witness :
    (test_one_arg_set [PyVal.int 1] (fun _ => PyOutcome.raised)
        (fun _ => PyVal.int 3)).is_correct = false :=
  candidate_failure_marked_incorrect [PyVal.int 1] (fun _ => PyOutcome.raised)
    (fun _ => PyVal.int 3) (Or.inl rfl) (by decide)

/-- C4: for every evaluated argument set, the `expected` field is the
reference callable's return value; on timeout `actual = None` with the fixed
infinite-loop message; on an exception `actual = None` with the fixed
runtime-error message; on a normal return `actual` is the candidate's value
and `exception_str = None`. -/
theorem test_one_arg_set_fields (arg_set : List PyVal) (stf_func : Candidate)
    (sol_func : RefFunc) :
    (test_one_arg_set arg_set stf_func sol_func).expected = sol_func arg_set
    ∧ (stf_func arg_set = PyOutcome.timeout →
        (test_one_arg_set arg_set stf_func sol_func).actual = PyVal.none
        ∧ (test_one_arg_set arg_set stf_func sol_func).exception_str = some INFINITE_LOOP_STR)
    ∧ (stf_func arg_set = PyOutcome.raised →
        (test_one_arg_set arg_set stf_func sol_func).actual = PyVal.none
        ∧ (test_one_arg_set arg_set stf_func sol_func).exception_str = some RUN_TIME_ERR_STR)
    ∧ (∀ v, stf_func arg_set = PyOutcome.ret v →
        (test_one_arg_set arg_set stf_func sol_func).actual = v
        ∧ (test_one_arg_set arg_set stf_func sol_func).exception_str = Option.none) := by
  cases h : stf_func arg_set <;>
    simp [test_one_arg_set, run_with_timeout, h, ArgSetTestResult.make, pyTruthy,
      RUN_TIME_ERR_STR_isEmpty]

/-- Witness for C4 at concrete inputs: a candidate returning 7 yields
`actual = 7`, no exception text, and `expected` is the reference's value. -/
theorem test_one_arg_set_fields_witness :
    (test_one_arg_set [] (fun _ => PyOutcome.ret (PyVal.int 7))
        (fun _ => PyVal.int 7)).actual = PyVal.int 7
    ∧ (test_one_arg_set [] (fun _ => PyOutcome.ret (PyVal.int 7))
        (fun _ => PyVal.int 7)).exception_str = Option.none :=
  (test_one_arg_set_fields [] (fun _ => PyOutcome.ret (PyVal.int 7))
      (fun _ => PyVal.int 7)).2.2.2 (PyVal.int 7) rfl

/-- C10: when the candidate callable resolves and the spec's argument-set
list is empty, the recorded `FuncTestResult` (the last one appended by
`test_func`) scores the full configured score, vacuously. -/
theorem empty_arg_sets_full_score (func : Func) (stf : StudentFile)
    (solModule : String → RefFunc) (c : Candidate)
    (hres : stf.module func.name = some c) (hempty : func.arg_sets = []) :
    ((test_func func stf solModule).function_test_results.getLastD
        ⟨"", 0, [], true⟩).calc_score = func.score := by
  unfold test_func
  rw [hres, hempty]
  simp [List.getLastD_concat, FuncTestResult.calc_score]

/-- Witness for C10: a resolvable candidate with an empty argument-set list
earns the configured 10 points. -/
theorem empty_arg_sets_full_score_witness :
    ((test_func ⟨"f", [], 10⟩
          ⟨fun _ => some (fun _ => PyOutcome.ret PyVal.none), []⟩
          (fun _ => fun _ => PyVal.none)).function_test_results.getLastD
        ⟨"", 0, [], true⟩).calc_score = 10 :=
  empty_arg_sets_full_score ⟨"f", [], 10⟩
    ⟨fun _ => some (fun _ => PyOutcome.ret PyVal.none), []⟩
    (fun _ => fun _ => PyVal.none) (fun _ => PyOutcome.ret PyVal.none) rfl rfl

/-- Auxiliary: folding `add_set_result` over a list of argument sets appends
the mapped results in order. -/
theorem foldl_add_set_result (f : List PyVal → ArgSetTestResult)
    (args : List (List PyVal)) (fr : FuncTestResult) :
    args.foldl (fun fr a => fr.add_set_result (f a)) fr
      = { fr with arg_sets_res := fr.arg_sets_res ++ args.map f } := by
  induction args generalizing fr with
  | nil => simp
  | cons a as ih =>
    simp only [List.foldl_cons, List.map_cons]
    rw [ih]
    simp [FuncTestResult.add_set_result]

/-- Auxiliary: `test_func` leaves the student file unchanged except for
appending exactly the characterized `FuncTestResult`. -/
theorem test_func_eq (func : Func) (stf : StudentFile)
    (solModule : String → RefFunc) :
    test_func func stf solModule
      = { stf with function_test_results :=
            stf.function_test_results
              ++ [test_func_result func stf.module solModule] } := by
  unfold test_func test_func_result
  cases h : stf.module func.name with
  | none => rfl
  | some c =>
    simp only [foldl_add_set_result]
    rfl

/-- C3: `test_func` appends exactly one `FuncTestResult` for the (student,
function) pair and changes nothing else: when resolving the candidate fails
(`stf.module func.name = none`) the appended record has the load-failed flag
set and an empty result list, so no argument set is evaluated; when it
succeeds the flag is clear and the record holds exactly one
`ArgSetTestResult` per argument set of the spec, in declared order (see
`test_func_result`). -/
theorem test_func_spec (func : Func) (stf : StudentFile)
    (solModule : String → RefFunc) :
    test_func func stf solModule
      = { stf with function_test_results :=
            stf.function_test_results
              ++ [test_func_result func stf.module solModule] } :=
  test_func_eq func stf solModule

/-- Auxiliary: grading a list of function specs appends one characterized
result per spec, in the given order; the student's module is never changed,
so each spec's result is independent of earlier outcomes. -/
theorem foldl_test_func (funcs : List Func) (stf : StudentFile)
    (solModule : String → RefFunc) :
    funcs.foldl (fun s f => test_func f s solModule) stf
      = { stf with function_test_results :=
            stf.function_test_results
              ++ funcs.map (fun f => test_func_result f stf.module solModule) } := by
  induction funcs generalizing stf with
  | nil => simp
  | cons f fs ih =>
    simp only [List.foldl_cons, List.map_cons]
    rw [test_func_eq, ih]
    simp [List.append_assoc]

/-- C7: `grade_section` evaluates every function spec for every student file
in the section, in the caller-supplied order, appending exactly one
`FuncTestResult` per (student, function) pair; each result depends only on
that student's module and the spec, so no evaluation is skipped because an
earlier function failed to load or scored 0. -/
theorem grade_section_spec (solModule : String → RefFunc) (funcs : List Func)
    (sec : GSection) :
    (grade_section solModule funcs sec).student_files
      = sec.student_files.map (fun stf =>
          { stf with function_test_results :=
              stf.function_test_results
                ++ funcs.map (fun f => test_func_result f stf.module solModule) }) := by
  unfold grade_section
  simp only [foldl_test_func]

/-- C9: the header template is character-for-character the fixed literal
with fifteen `#` on each side, and the rendered header fills it with the
function name, the received score (0 on load failure, else `calc_score`'s
value) and the configured maximum score. -/
theorem func_test_header_spec :
    FUNC_TEST_HEADER = "############### function: %s, score: %d/%d###############\n"
    ∧ ∀ r : FuncTestResult,
        r.header
          = "############### function: "
              ++ (r.function_name
              ++ (", score: "
              ++ (toString (if r.exc then (0 : Int) else r.calc_score)
              ++ ("/" ++ (toString r.score ++ "###############\n"))))) :=
  ⟨rfl, fun _ => rfl⟩

/-- Auxiliary: reading just past a one-cell extension yields the appended
value. -/
theorem read_append_len (h : Heap) (v : PyVal) : Heap.read (h ++ [v]) h.length = v := by
  unfold Heap.read
  rw [List.getD_eq_getElem?_getD, List.getElem?_append_right (le_refl h.length)]
  simp

/-- Auxiliary: a one-cell extension does not change in-range reads. -/
theorem read_append_lt (h : Heap) (v : PyVal) (r : Nat) (hr : r < h.length) :
    Heap.read (h ++ [v]) r = Heap.read h r := by
  unfold Heap.read
  exact List.getD_append h [v] PyVal.none r hr

/-- Auxiliary: unfolding one step of the currying loop, heap component: the
loop continues on the heap extended with the two fresh copies. -/
theorem curry_cons_heap (h : Heap) (a : Nat) (rs : List Nat) :
    (curry_with_deepcopy h (a :: rs)).1
      = (curry_with_deepcopy
          ((h ++ [Heap.read h a]) ++ [Heap.read (h ++ [Heap.read h a]) a]) rs).1 := rfl

/-- Auxiliary: unfolding one step of the currying loop, candidate
references: the head copy is allocated at cell `h.length`. -/
theorem curry_cons_cand (h : Heap) (a : Nat) (rs : List Nat) :
    (curry_with_deepcopy h (a :: rs)).2.1
      = h.length :: (curry_with_deepcopy
          ((h ++ [Heap.read h a]) ++ [Heap.read (h ++ [Heap.read h a]) a]) rs).2.1 := rfl

/-- Auxiliary: unfolding one step of the currying loop, reference-path
references: the head copy is allocated at cell `h.length + 1`. -/
theorem curry_cons_sol (h : Heap) (a : Nat) (rs : List Nat) :
    (curry_with_deepcopy h (a :: rs)).2.2
      = (h.length + 1) :: (curry_with_deepcopy
          ((h ++ [Heap.read h a]) ++ [Heap.read (h ++ [Heap.read h a]) a]) rs).2.2 := by
  show (h ++ [Heap.read h a]).length :: _ = _
  rw [List.length_append, List.length_cons, List.length_nil]
  exact rfl

/-- Auxiliary: the currying loop yields one candidate reference and one
reference-path reference per argument. -/
theorem curry_lengths (args : List Nat) : ∀ h : Heap,
    (curry_with_deepcopy h args).2.1.length = args.length
    ∧ (curry_with_deepcopy h args).2.2.length = args.length := by
  induction args with
  | nil => intro h; exact ⟨rfl, rfl⟩
  | cons a rs ih =>
    intro h
    constructor
    · rw [curry_cons_cand, List.length_cons, List.length_cons,
        (ih ((h ++ [Heap.read h a]) ++ [Heap.read (h ++ [Heap.read h a]) a])).1]
    · rw [curry_cons_sol, List.length_cons, List.length_cons,
        (ih ((h ++ [Heap.read h a]) ++ [Heap.read (h ++ [Heap.read h a]) a])).2]

/-- Auxiliary: the candidate's i-th copy lives at cell `h.length + 2*i`, the
reference path's at `h.length + 2*i + 1`; in particular all fresh cells are
pairwise distinct and disjoint from the original heap. -/
theorem curry_positions (args : List Nat) : ∀ (h : Heap) (i : Nat), i < args.length →
    (curry_with_deepcopy h args).2.1.getD i 0 = h.length + 2 * i
    ∧ (curry_with_deepcopy h args).2.2.getD i 0 = h.length + 2 * i + 1 := by
  induction args with
  | nil => intro h i hi; simp at hi
  | cons a rs ih =>
    intro h i hi
    cases i with
    | zero =>
      constructor
      · rw [curry_cons_cand, List.getD_cons_zero]; omega
      · rw [curry_cons_sol, List.getD_cons_zero]
    | succ j =>
      have hj : j < rs.length := Nat.lt_of_succ_lt_succ hi
      have h2 := ih ((h ++ [Heap.read h a]) ++ [Heap.read (h ++ [Heap.read h a]) a]) j hj
      have hlen : ((h ++ [Heap.read h a]) ++ [Heap.read (h ++ [Heap.read h a]) a]).length
          = h.length + 2 := by simp
      rw [hlen] at h2
      constructor
      · rw [curry_cons_cand, List.getD_cons_succ, h2.1]; omega
      · rw [curry_cons_sol, List.getD_cons_succ, h2.2]; omega

/-- Auxiliary: the currying loop only appends cells: the heap grows by two
cells per argument and reads below the original heap length are unchanged. -/
theorem curry_heap_reads (args : List Nat) : ∀ h : Heap,
    (curry_with_deepcopy h args).1.length = h.length + 2 * args.length
    ∧ ∀ r, r < h.length → Heap.read (curry_with_deepcopy h args).1 r = Heap.read h r := by
  induction args with
  | nil => intro h; constructor; · simp [curry_with_deepcopy]
           · intro r _; rfl
  | cons a rs ih =>
    intro h
    have hlen : ((h ++ [Heap.read h a]) ++ [Heap.read (h ++ [Heap.read h a]) a]).length
        = h.length + 2 := by simp
    have h2 := ih ((h ++ [Heap.read h a]) ++ [Heap.read (h ++ [Heap.read h a]) a])
    constructor
    · rw [curry_cons_heap, h2.1, hlen, List.length_cons]; omega
    · intro r hr
      rw [curry_cons_heap, h2.2 r (by rw [hlen]; omega)]
      rw [read_append_lt _ _ r (by simp; omega), read_append_lt _ _ r hr]

/-- Auxiliary: right after the currying loop, both fresh copies of each
argument hold the original argument's value. -/
theorem curry_copy_values (args : List Nat) : ∀ h : Heap,
    (∀ r ∈ args, r < h.length) →
    ∀ i, i < args.length →
      Heap.read (curry_with_deepcopy h args).1 (h.length + 2 * i)
          = Heap.read h (args.getD i 0)
      ∧ Heap.read (curry_with_deepcopy h args).1 (h.length + 2 * i + 1)
          = Heap.read h (args.getD i 0) := by
  induction args with
  | nil => intro h _ i hi; simp at hi
  | cons a rs ih =>
    intro h hv i hi
    have ha : a < h.length := hv a (List.mem_cons_self a rs)
    have hread1 : Heap.read (h ++ [Heap.read h a]) a = Heap.read h a :=
      read_append_lt h _ a ha
    have hlen : ((h ++ [Heap.read h a]) ++ [Heap.read (h ++ [Heap.read h a]) a]).length
        = h.length + 2 := by simp
    have hpres := (curry_heap_reads rs
      ((h ++ [Heap.read h a]) ++ [Heap.read (h ++ [Heap.read h a]) a])).2
    cases i with
    | zero =>
      constructor
      · rw [curry_cons_heap, hpres (h.length + 2 * 0) (by rw [hlen]; omega)]
        rw [show h.length + 2 * 0 = h.length from by omega]
        rw [read_append_lt _ _ h.length (by simp), read_append_len, List.getD_cons_zero]
      · rw [curry_cons_heap, hpres (h.length + 2 * 0 + 1) (by rw [hlen]; omega)]
        rw [show h.length + 2 * 0 + 1 = (h ++ [Heap.read h a]).length from by simp]
        rw [read_append_len, hread1, List.getD_cons_zero]
    | succ j =>
      have hj : j < rs.length := Nat.lt_of_succ_lt_succ hi
      have hv2 : ∀ r ∈ rs,
          r < ((h ++ [Heap.read h a]) ++ [Heap.read (h ++ [Heap.read h a]) a]).length := by
        intro r hr
        rw [hlen]
        have := hv r (List.mem_cons_of_mem a hr)
        omega
      have h2 := ih ((h ++ [Heap.read h a]) ++ [Heap.read (h ++ [Heap.read h a]) a]) hv2 j hj
      rw [hlen] at h2
      have hmem : rs.getD j 0 ∈ rs := by
        rw [List.getD_eq_getElem rs 0 hj]
        exact List.getElem_mem hj
      have hlt : rs.getD j 0 < h.length := hv _ (List.mem_cons_of_mem a hmem)
      have hread2 : Heap.read ((h ++ [Heap.read h a]) ++ [Heap.read (h ++ [Heap.read h a]) a])
          (rs.getD j 0) = Heap.read h (rs.getD j 0) := by
        rw [read_append_lt _ _ _
            (by rw [List.length_append, List.length_cons, List.length_nil]; omega),
          read_append_lt _ _ _ hlt]
      rw [hread2] at h2
      constructor
      · rw [curry_cons_heap,
          show h.length + 2 * (j + 1) = h.length + 2 + 2 * j from by omega,
          h2.1, List.getD_cons_succ]
      · rw [curry_cons_heap,
          show h.length + 2 * (j + 1) + 1 = h.length + 2 + 2 * j + 1 from by omega,
          h2.2, List.getD_cons_succ]

/-- Auxiliary: mutations through a callable's own argument references leave
every cell outside those references unchanged. -/
theorem run_mutations_frame (writes : List (Nat × PyVal)) : ∀ (h : Heap)
    (refs : List Nat) (r : Nat), r ∉ refs →
    Heap.read (run_mutations h refs writes) r = Heap.read h r := by
  induction writes with
  | nil => intro h refs r _; rfl
  | cons w ws ih =>
    intro h refs r hr
    have step : run_mutations h refs (w :: ws)
        = run_mutations
            (match refs.get? w.1 with
              | some rr => Heap.write h rr w.2
              | Option.none => h) refs ws := rfl
    rw [step, ih _ refs r hr]
    cases hw : refs.get? w.1 with
    | none => simp only [hw]
    | some rr =>
      have hmem : rr ∈ refs := List.get?_mem hw
      have hne : rr ≠ r := fun he => hr (he ▸ hmem)
      simp only [hw]
      unfold Heap.read Heap.write
      rw [List.getD_eq_getElem?_getD, List.getD_eq_getElem?_getD,
        List.getElem?_set_ne hne]

/-- Auxiliary: every candidate-path reference is of the form
`h.length + 2*j`. -/
theorem mem_curry_cand (h : Heap) (args : List Nat) (x : Nat)
    (hx : x ∈ (curry_with_deepcopy h args).2.1) :
    ∃ j, j < args.length ∧ x = h.length + 2 * j := by
  obtain ⟨i, hi, hget⟩ := List.mem_iff_getElem.mp hx
  have hlen := (curry_lengths args h).1
  refine ⟨i, by omega, ?_⟩
  have hpos := (curry_positions args h i (by omega)).1
  rw [List.getD_eq_getElem _ 0 hi] at hpos
  rw [← hget, hpos]

/-- Auxiliary: every reference-path reference is of the form
`h.length + 2*j + 1`. -/
theorem mem_curry_sol (h : Heap) (args : List Nat) (x : Nat)
    (hx : x ∈ (curry_with_deepcopy h args).2.2) :
    ∃ j, j < args.length ∧ x = h.length + 2 * j + 1 := by
  obtain ⟨i, hi, hget⟩ := List.mem_iff_getElem.mp hx
  have hlen := (curry_lengths args h).2
  refine ⟨i, by omega, ?_⟩
  have hpos := (curry_positions args h i (by omega)).2
  rw [List.getD_eq_getElem _ 0 hi] at hpos
  rw [← hget, hpos]

/-- C6: the deep-copy currying loop isolates the two call paths and the
stored inputs.  For a heap of argument objects (each argument reference in
range) and arbitrary in-place mutations performed by the candidate on its
own arguments and then by the reference on its own arguments: each path's
copy initially holds the original argument value; the reference path still
reads the original value after the candidate's mutations; and the original
cells — the values stored in the result's `inputs` field and used by later
evaluations — are unchanged after both runs. -/
theorem deepcopy_isolation (h : Heap) (args : List Nat)
    (hv : ∀ r ∈ args, r < h.length)
    (cand_writes ref_writes : List (Nat × PyVal)) :
    (∀ i, i < args.length →
      Heap.read (curry_with_deepcopy h args).1
          ((curry_with_deepcopy h args).2.1.getD i 0)
        = Heap.read h (args.getD i 0)
      ∧ Heap.read (curry_with_deepcopy h args).1
          ((curry_with_deepcopy h args).2.2.getD i 0)
        = Heap.read h (args.getD i 0)
      ∧ Heap.read
          (run_mutations (curry_with_deepcopy h args).1
            (curry_with_deepcopy h args).2.1 cand_writes)
          ((curry_with_deepcopy h args).2.2.getD i 0)
        = Heap.read h (args.getD i 0))
    ∧ ∀ r ∈ args,
        Heap.read
          (run_mutations
            (run_mutations (curry_with_deepcopy h args).1
              (curry_with_deepcopy h args).2.1 cand_writes)
            (curry_with_deepcopy h args).2.2 ref_writes) r
          = Heap.read h r := by
  constructor
  · intro i hi
    have hpos := curry_positions args h i hi
    have hval := curry_copy_values args h hv i hi
    refine ⟨?_, ?_, ?_⟩
    · rw [hpos.1]; exact hval.1
    · rw [hpos.2]; exact hval.2
    · rw [hpos.2]
      have hnot : (h.length + 2 * i + 1) ∉ (curry_with_deepcopy h args).2.1 := by
        intro hx
        obtain ⟨j, _, he⟩ := mem_curry_cand h args _ hx
        omega
      rw [run_mutations_frame cand_writes _ _ _ hnot]
      exact hval.2
  · intro r hr
    have hrlt := hv r hr
    have hnc : r ∉ (curry_with_deepcopy h args).2.1 := by
      intro hx
      obtain ⟨j, _, he⟩ := mem_curry_cand h args r hx
      omega
    have hns : r ∉ (curry_with_deepcopy h args).2.2 := by
      intro hx
      obtain ⟨j, _, he⟩ := mem_curry_sol h args r hx
      omega
    rw [run_mutations_frame ref_writes _ _ _ hns,
      run_mutations_frame cand_writes _ _ _ hnc]
    exact (curry_heap_reads args h).2 r hrlt

/-- Witness for C6 at a concrete heap: one original object `5`, one argument
referencing it, a candidate that overwrites its copy with `99`; the original
cell still holds `5` after both runs. -/
theorem deepcopy_isolation_witness :
    Heap.read
        (run_mutations
          (run_mutations (curry_with_deepcopy [PyVal.int 5] [0]).1
            (curry_with_deepcopy [PyVal.int 5] [0]).2.1 [(0, PyVal.int 99)])
          (curry_with_deepcopy [PyVal.int 5] [0]).2.2 []) 0
      = Heap.read [PyVal.int 5] 0 :=
  (deepcopy_isolation [PyVal.int 5] [0] (by decide) [(0, PyVal.int 99)] []).2 0
    (by decide)

end Tester
